import Mathlib

/-!
Verification of `rv_geojson.py` (richieVil/rv_packages).

The Python source is shallowly embedded over `ℚ`.  Two arithmetic layers
are used:

* an exact-rational layer (decimal literals read as exact rationals),
  used for the structural and order-theoretic claims; at every concrete
  input appearing below the exact results coincide with IEEE results; and
* a bit-exact IEEE-754 binary64 layer (`roundD`, `fadd`, …) in which every
  Python float is represented by the exact rational value of its double,
  used for the numerically sensitive concrete doctest claim, whose center
  coordinates fall on decimal rounding ties that only the binary
  representation error breaks.

Fallible Python code is modelled with `Except PyErr`; the Python
exception classes raised by the source are the constructors of `PyErr`.
-/

/- Core marks the `Rat` field operations `@[irreducible]`, which blocks
the elaborator from evaluating the executable definitions below by
reduction (the kernel is unaffected).  Restore the default reducibility
so that concrete runs of the model can be settled by `decide`. -/
set_option allowUnsafeReducibility true
attribute [semireducible] Rat.add Rat.mul Rat.sub Rat.div Rat.inv Rat.neg Rat.normalize Rat.floor

namespace RVGeojson

/-- Python exception classes raised by the embedded code. -/
inductive PyErr where
  | valueError
  | notImplementedError
  | keyError
  | typeError
  | indexError
deriving DecidableEq, Repr

deriving instance DecidableEq for Except

/-- Python `min(a, b)`: the first argument on ties. -/
def pymin2 (x y : ℚ) : ℚ := if y < x then y else x

/-- Python `max(a, b)`: the first argument on ties. -/
def pymax2 (x y : ℚ) : ℚ := if x < y then y else x

/-- Round a rational to the nearest integer, ties to even: the rounding
CPython's `round` applies to the exact value of a float. -/
def rheInt (q : ℚ) : ℤ :=
  if q - ⌊q⌋ < 1/2 then ⌊q⌋
  else if 1/2 < q - ⌊q⌋ then ⌊q⌋ + 1
  else if ⌊q⌋ % 2 = 0 then ⌊q⌋ else ⌊q⌋ + 1

/-- `round(x, n)` on the exact value of `x`: round to `n` decimal places,
ties to even. -/
def roundTo (n : ℕ) (q : ℚ) : ℚ :=
  (rheInt (q * 10 ^ n) : ℚ) / 10 ^ n

/-- `numpy.interp` at one point over knots `(x, y)` with strictly
increasing `x`: clamp below the first knot and above the last, linear
interpolation `y0 + (x - x0) * (y1 - y0) / (x1 - x0)` in between; an `x`
equal to a knot returns that knot's `y` exactly. -/
def interpPL (x : ℚ) : List (ℚ × ℚ) → ℚ
  | [] => 0
  | [p] => p.2
  | p :: q :: rest =>
    if x ≤ p.1 then p.2
    else if x < q.1 then p.2 + (x - p.1) * (q.2 - p.2) / (q.1 - p.1)
    else interpPL x (q :: rest)

/-- `lon_zoom_range` from `get_zoom_mercator`, paired with
`range(20, 0, -1)`: longitudinal degree span per zoom level. -/
def lon_zoom_range : List (ℚ × ℚ) :=
  [(7/10000, 20), (14/10000, 19), (3/1000, 18), (6/1000, 17),
   (12/1000, 16), (24/1000, 15), (48/1000, 14), (96/1000, 13),
   (192/1000, 12), (3712/10000, 11), (768/1000, 10), (1536/1000, 9),
   (3072/1000, 8), (6144/1000, 7), (118784/10000, 6), (237568/10000, 5),
   (475136/10000, 4), (98304/1000, 3), (1900544/10000, 2), (360, 1)]

/-- `get_zoom_mercator(minlon, maxlon, minlat, maxlat, width_to_height)`:
margin 1.2 on each axis, `numpy.interp` of width and height against the
span table, the smaller of the two zooms rounded to 2 decimals. -/
def get_zoom_mercator (minlon maxlon minlat maxlat width_to_height : ℚ) : ℚ :=
  let margin : ℚ := 12/10
  let height := (maxlat - minlat) * margin * width_to_height
  let width := (maxlon - minlon) * margin
  let lon_zoom := interpPL width lon_zoom_range
  let lat_zoom := interpPL height lon_zoom_range
  roundTo 2 (pymin2 lon_zoom lat_zoom)

/-- The `{'lon': …, 'lat': …}` center dictionary. -/
structure Center where
  lon : ℚ
  lat : ℚ
deriving DecidableEq, Repr

/-- Python `max` over a tuple: `ValueError` when empty. -/
def pymax : List ℚ → Except PyErr ℚ
  | [] => .error .valueError
  | x :: xs => .ok (xs.foldl pymax2 x)

/-- Python `min` over a tuple: `ValueError` when empty. -/
def pymin : List ℚ → Except PyErr ℚ
  | [] => .error .valueError
  | x :: xs => .ok (xs.foldl pymin2 x)

/-- `max(...)`/`min(...)` applied to an optional argument: `None` raises
`TypeError`, an empty tuple raises `ValueError`. -/
def pymaxOpt : Option (List ℚ) → Except PyErr ℚ
  | none => .error .typeError
  | some l => pymax l

def pyminOpt : Option (List ℚ) → Except PyErr ℚ
  | none => .error .typeError
  | some l => pymin l

/-- `zoom_center(lons, lats, lonlats, format, projection, width_to_height)`.
Mirrors the source line by line: when both `lons` and `lats` are `None`,
`lonlats` is unzipped (a `None`/non-tuple `lonlats` raises `ValueError`,
and so does unpacking `zip(*())` of an empty tuple); then max/min per
axis, the rounded midpoint center, and the Mercator zoom — any other
projection raises `NotImplementedError`.  Note the source never reads
`format`: `zip(*lonlats)` always takes first components as `lons`. -/
def zoom_center (lons lats : Option (List ℚ)) (lonlats : Option (List (ℚ × ℚ)))
    (format projection : String) (width_to_height : ℚ) :
    Except PyErr (ℚ × Center) := do
  let (lons, lats) ←
    if lons.isNone && lats.isNone then
      match lonlats with
      | some [] => (.error .valueError : Except PyErr _)
      | some ps => .ok (some (ps.map Prod.fst), some (ps.map Prod.snd))
      | none => .error .valueError
    else .ok (lons, lats)
  let maxlon ← pymaxOpt lons
  let minlon ← pyminOpt lons
  let maxlat ← pymaxOpt lats
  let minlat ← pyminOpt lats
  let center : Center :=
    { lon := roundTo 6 ((maxlon + minlon) / 2)
      lat := roundTo 6 ((maxlat + minlat) / 2) }
  if projection = "mercator" then
    let _ := format
    .ok (get_zoom_mercator minlon maxlon minlat maxlat width_to_height, center)
  else
    .error .notImplementedError

/-- `zoom_on_box(box, format, width_to_height)`.  The source unpacks the
box IDENTICALLY in the `'lonlat'` and `'latlon'` branches
(`(minlon, maxlon), (minlat, maxlat) = box` in both); any other format
raises `ValueError`. -/
def zoom_on_box (box : (ℚ × ℚ) × (ℚ × ℚ)) (format : String)
    (width_to_height : ℚ) : Except PyErr (ℚ × Center) := do
  let ((minlon, maxlon), (minlat, maxlat)) ←
    if format = "lonlat" then
      .ok box
    else if format = "latlon" then
      (.ok box : Except PyErr _)
    else
      .error .valueError
  let center : Center :=
    { lon := roundTo 6 ((maxlon + minlon) / 2)
      lat := roundTo 6 ((maxlat + minlat) / 2) }
  let zoom := get_zoom_mercator minlon maxlon minlat maxlat width_to_height
  .ok (zoom, center)

/-! ### Bit-exact IEEE-754 binary64 layer

Every CPython float and every numpy float64 is a dyadic rational; the
functions below compute, over `ℚ`, exactly the values the interpreter
computes.  (Overflow and subnormals are outside the magnitudes this code
handles and are not modelled.)  This layer was cross-validated against
CPython on thousands of random inputs for each operation. -/

/-- Absolute value, written explicitly so it evaluates by reduction. -/
def qabs (q : ℚ) : ℚ := if q < 0 then -q else q

/-- Number of binary digits of `n` (0 for 0); the first argument is
fuel, always called with `n` itself so it never runs out. -/
def bitlen : ℕ → ℕ → ℕ
  | 0, _ => 0
  | fuel + 1, n => if n = 0 then 0 else bitlen fuel (n / 2) + 1

/-- Multiply by an integer power of two. -/
def mulPow2 (q : ℚ) (e : ℤ) : ℚ :=
  if 0 ≤ e then q * ((2 ^ e.toNat : ℕ) : ℚ) else q / ((2 ^ (-e).toNat : ℕ) : ℚ)

/-- For `0 < q`, the `e` with `2^e ≤ q < 2^(e+1)`. -/
def ilog2 (q : ℚ) : ℤ :=
  let n := q.num.toNat
  let d := q.den
  let L : ℤ := (bitlen n n : ℤ) - (bitlen d d : ℤ)
  if mulPow2 1 L ≤ q then L else L - 1

/-- Round a rational to the nearest IEEE-754 binary64 value (53-bit
mantissa, ties to even), as an exact rational. -/
def roundD (q : ℚ) : ℚ :=
  if q = 0 then 0
  else
    let a := qabs q
    let e := ilog2 a
    let r := mulPow2 (rheInt (mulPow2 a (52 - e)) : ℚ) (e - 52)
    if q < 0 then -r else r

/-- The binary64 value denoted by a decimal literal in the source. -/
def dbl (q : ℚ) : ℚ := roundD q

/-- binary64 addition. -/
def fadd (x y : ℚ) : ℚ := roundD (x + y)

/-- binary64 subtraction. -/
def fsub (x y : ℚ) : ℚ := roundD (x - y)

/-- binary64 multiplication. -/
def fmul (x y : ℚ) : ℚ := roundD (x * y)

/-- binary64 division. -/
def fdiv (x y : ℚ) : ℚ := roundD (x / y)

/-- CPython `round(x, n)` on a float `x`: the float nearest to the exact
value of `x` correctly rounded to `n` decimal places, ties to even. -/
def pyRound (n : ℕ) (x : ℚ) : ℚ := roundD (roundTo n x)

/-- `numpy.interp` at one point, with every arithmetic operation rounded
to binary64 exactly as in numpy's `compiled_interp`:
`slope = (y1 - y0) / (x1 - x0)`, `ret = slope * (x - x0) + y0`; an `x`
equal to a knot hits the segment starting at that knot, whose formula
returns the knot's `y` exactly. -/
def interpF (x : ℚ) : List (ℚ × ℚ) → ℚ
  | [] => 0
  | [p] => p.2
  | p :: q :: rest =>
    if x ≤ p.1 then p.2
    else if x < q.1 then
      fadd (fmul (fdiv (fsub q.2 p.2) (fsub q.1 p.1)) (fsub x p.1)) p.2
    else interpF x (q :: rest)

/-- The span table with each entry the binary64 value of its decimal
literal; the zoom levels `range(20, 0, -1)` are exact in binary64. -/
def lon_zoom_rangeF : List (ℚ × ℚ) :=
  [(dbl (7/10000), 20), (dbl (14/10000), 19), (dbl (3/1000), 18),
   (dbl (6/1000), 17), (dbl (12/1000), 16), (dbl (24/1000), 15),
   (dbl (48/1000), 14), (dbl (96/1000), 13), (dbl (192/1000), 12),
   (dbl (3712/10000), 11), (dbl (768/1000), 10), (dbl (1536/1000), 9),
   (dbl (3072/1000), 8), (dbl (6144/1000), 7), (dbl (118784/10000), 6),
   (dbl (237568/10000), 5), (dbl (475136/10000), 4), (dbl (98304/1000), 3),
   (dbl (1900544/10000), 2), (360, 1)]

/-- `get_zoom_mercator` in bit-exact binary64 arithmetic. -/
def get_zoom_mercatorF (minlon maxlon minlat maxlat width_to_height : ℚ) : ℚ :=
  let margin : ℚ := dbl (12/10)
  let height := fmul (fmul (fsub maxlat minlat) margin) width_to_height
  let width := fmul (fsub maxlon minlon) margin
  let lon_zoom := interpF width lon_zoom_rangeF
  let lat_zoom := interpF height lon_zoom_rangeF
  pyRound 2 (pymin2 lon_zoom lat_zoom)

/-- `zoom_center` in bit-exact binary64 arithmetic; same control flow as
`zoom_center` (and like it, `format` is never read by the source). -/
def zoom_centerF (lons lats : Option (List ℚ)) (lonlats : Option (List (ℚ × ℚ)))
    (format projection : String) (width_to_height : ℚ) :
    Except PyErr (ℚ × Center) := do
  let (lons, lats) ←
    if lons.isNone && lats.isNone then
      match lonlats with
      | some [] => (.error .valueError : Except PyErr _)
      | some ps => .ok (some (ps.map Prod.fst), some (ps.map Prod.snd))
      | none => .error .valueError
    else .ok (lons, lats)
  let maxlon ← pymaxOpt lons
  let minlon ← pyminOpt lons
  let maxlat ← pymaxOpt lats
  let minlat ← pyminOpt lats
  let center : Center :=
    { lon := pyRound 6 (fdiv (fadd maxlon minlon) 2)
      lat := pyRound 6 (fdiv (fadd maxlat minlat) 2) }
  if projection = "mercator" then
    let _ := format
    .ok (get_zoom_mercatorF minlon maxlon minlat maxlat width_to_height, center)
  else
    .error .notImplementedError

/-! ### Geojson data model and the geometry pipeline

`geometry['coordinates']` is an arbitrarily nested list whose leaves are
numbers; a geometry dictionary has a `type` tag and optionally a
`coordinates` or a `geometries` key (absent keys raise `KeyError` on
access). -/

/-- A Python value inside a `coordinates` tree: a number or a list. -/
inductive CoordTree where
  | num : ℚ → CoordTree
  | arr : List CoordTree → CoordTree

mutual

/-- Decidable equality of coordinate trees. -/
def CoordTree.deq : (a b : CoordTree) → Decidable (a = b)
  | .num x, .num y => @decidable_of_iff _ _ (by simp) (inferInstance : Decidable (x = y))
  | .num _, .arr _ => isFalse (fun h => CoordTree.noConfusion h)
  | .arr _, .num _ => isFalse (fun h => CoordTree.noConfusion h)
  | .arr as, .arr bs => @decidable_of_iff _ _ (by simp) (CoordTree.deqList as bs)

/-- Decidable equality of lists of coordinate trees. -/
def CoordTree.deqList : (as bs : List CoordTree) → Decidable (as = bs)
  | [], [] => isTrue rfl
  | [], _ :: _ => isFalse (fun h => List.noConfusion h)
  | _ :: _, [] => isFalse (fun h => List.noConfusion h)
  | a :: as, b :: bs =>
    @decidable_of_iff _ _ (by simp)
      (@instDecidableAnd _ _ (CoordTree.deq a b) (CoordTree.deqList as bs))

end

instance : DecidableEq CoordTree := CoordTree.deq

/-- A geometry dictionary: `type`, and the `coordinates`/`geometries`
keys when present (`none` models an absent key). -/
inductive Geometry where
  | mk : String → Option CoordTree → Option (List Geometry) → Geometry

/-- The `type` entry of a geometry dictionary. -/
def Geometry.type_ : Geometry → String
  | .mk t _ _ => t

/-- The `coordinates` entry of a geometry dictionary, when present. -/
def Geometry.coordinates : Geometry → Option CoordTree
  | .mk _ c _ => c

/-- The `geometries` entry of a geometry dictionary, when present. -/
def Geometry.geometries : Geometry → Option (List Geometry)
  | .mk _ _ g => g

/-- A feature dictionary (only its `geometry` entry is read here). -/
structure Feature where
  geometry : Geometry

/-- A feature-collection dictionary: `type` and `features`. -/
structure GeoJSON where
  type_ : String
  features : List Feature

/-- `flatten_list(L)`: yield each element `e` whose `e[0]` is a number,
recurse into `e` otherwise.  `e[0]` on a number raises `TypeError`, on
an empty list `IndexError`; errors surface in generator order. -/
def flatten_list : List CoordTree → Except PyErr (List CoordTree)
  | [] => .ok []
  | .num _ :: _ => .error .typeError
  | .arr [] :: _ => .error .indexError
  | .arr (.num a :: cs) :: rest => do
    let tail ← flatten_list rest
    .ok (.arr (.num a :: cs) :: tail)
  | .arr (.arr c :: cs) :: rest => do
    let here ← flatten_list (.arr c :: cs)
    let tail ← flatten_list rest
    .ok (here ++ tail)

/-- The geometries `gen_geometries` yields for one feature: the children
of a `GeometryCollection` (a missing `geometries` key raises `KeyError`),
else the feature's own geometry. -/
def expandFeature (f : Feature) : Except PyErr (List Geometry) :=
  if f.geometry.type_ = "GeometryCollection" then
    match f.geometry.geometries with
    | some gs => .ok gs
    | none => .error .keyError
  else .ok [f.geometry]

/-- `list(flatten_list(geom['coordinates']))` for one geometry: a missing
`coordinates` key raises `KeyError`; iterating a number raises
`TypeError`. -/
def geomPairs (geom : Geometry) : Except PyErr (List CoordTree) :=
  match geom.coordinates with
  | none => .error .keyError
  | some (.num _) => .error .typeError
  | some (.arr l) => flatten_list l

/-- `pairs.extend(...)` across one feature's geometries. -/
def geomFold (acc : List CoordTree) : List Geometry → Except PyErr (List CoordTree)
  | [] => .ok acc
  | geom :: rest => do geomFold (acc ++ (← geomPairs geom)) rest

/-- The `pairs` accumulation loop of `flatten_geometries`, feature by
feature in `gen_geometries` order. -/
def featurePairs : List Feature → Except PyErr (List CoordTree)
  | [] => .ok []
  | f :: rest => do
    let gs ← expandFeature f
    let ps ← geomFold [] gs
    let tail ← featurePairs rest
    .ok (ps ++ tail)

/-- `lons, lats = zip(*pairs)`: transpose truncated to the shortest
element (so the unpack succeeds iff the shortest pair has exactly two
entries; `zip(*())` unpacks to nothing, a `ValueError`), `TypeError` if
some element is not iterable. -/
def unzipPairs (ps : List CoordTree) :
    Except PyErr (List CoordTree × List CoordTree) :=
  match ps.mapM (fun p => match p with | .arr l => some l | .num _ => none) with
  | none => .error .typeError
  | some [] => .error .valueError
  | some ls =>
    if (ls.map List.length).foldl Nat.min ((ls.headD []).length) = 2 then
      .ok (ls.map (fun l => l.headD (.arr [])),
           ls.map (fun l => (l.drop 1).headD (.arr [])))
    else .error .valueError

/-- `flatten_geometries(geojson, format, return_pairs)`.  The format
check preserves the source's typo: it accepts `['lonlat', 'lanlot']`
(raising `NotImplementedError` otherwise, so the documented `'latlon'`
is rejected), and any non-`'lonlat'` accepted format takes the swapped
`lats, lons = zip(*pairs)` branch. -/
def flatten_geometries (g : GeoJSON) (format : String) (return_pairs : Bool) :
    Except PyErr (List CoordTree × List CoordTree × Option (List CoordTree)) := do
  if ¬(format = "lonlat" ∨ format = "lanlot") then
    .error .notImplementedError
  else if g.features.isEmpty then
    .error .valueError
  else do
    let pairs ← featurePairs g.features
    let (row0, row1) ← unzipPairs pairs
    let (lons, lats) := if format = "lonlat" then (row0, row1) else (row1, row0)
    .ok (lons, lats, if return_pairs then some pairs else none)

/-- The running extrema of the `get_box` scan:
`(minlon, maxlon, minlat, maxlat)`. -/
abbrev BoxSt := ℚ × ℚ × ℚ × ℚ

/-- One point of the `get_box` scan: the `if minlon > p[0]: … elif
maxlon < p[0]: …` update, with min and max as MUTUALLY EXCLUSIVE
branches per axis, exactly as in the source. -/
def boxStep (st : BoxSt) (lon lat : ℚ) : BoxSt :=
  let (minlon, maxlon, minlat, maxlat) := st
  let lonp := if minlon > lon then (lon, maxlon)
              else if maxlon < lon then (minlon, lon)
              else (minlon, maxlon)
  let latp := if minlat > lat then (lat, maxlat)
              else if maxlat < lat then (minlat, lat)
              else (minlat, maxlat)
  (lonp.1, lonp.2, latp.1, latp.2)

/-- `p[1]` of a yielded pair `p = [a, …]` and the scan update: missing
second entry raises `IndexError`, a list entry makes the comparison
raise `TypeError`. -/
def scanPoint (st : BoxSt) (lon : ℚ) : List CoordTree → Except PyErr BoxSt
  | [] => .error .indexError
  | .num lat :: _ => .ok (boxStep st lon lat)
  | .arr _ :: _ => .error .typeError

/-- The `get_box` inner loop fused with the lazy `flatten_list`
generator (preserving the order in which errors surface). -/
def scanList (st : BoxSt) : List CoordTree → Except PyErr BoxSt
  | [] => .ok st
  | .num _ :: _ => .error .typeError
  | .arr [] :: _ => .error .indexError
  | .arr (.num a :: cs) :: rest => do
    let st' ← scanPoint st a cs
    scanList st' rest
  | .arr (.arr c :: cs) :: rest => do
    let st' ← scanList st (.arr c :: cs)
    scanList st' rest

/-- The scan across one feature's geometries. -/
def scanGeoms (st : BoxSt) : List Geometry → Except PyErr BoxSt
  | [] => .ok st
  | geom :: rest => do
    let st' ←
      match geom.coordinates with
      | none => (.error .keyError : Except PyErr BoxSt)
      | some (.num _) => .error .typeError
      | some (.arr l) => scanList st l
    scanGeoms st' rest

/-- The scan across all features, in `gen_geometries` order. -/
def scanFeatures (st : BoxSt) : List Feature → Except PyErr BoxSt
  | [] => .ok st
  | f :: rest => do
    let gs ← expandFeature f
    let st' ← scanGeoms st gs
    scanFeatures st' rest

/-- `get_box(geojson, format)`.  Same (typo'd) format check as
`flatten_geometries`; the extrema start from the hardcoded sentinels
`minlon = minlat = 180`, `maxlon = maxlat = -180`, and the scan uses the
`elif` update of `boxStep`. -/
def get_box (g : GeoJSON) (format : String) :
    Except PyErr ((ℚ × ℚ) × (ℚ × ℚ)) := do
  if ¬(format = "lonlat" ∨ format = "lanlot") then
    .error .notImplementedError
  else if g.features.isEmpty then
    .error .valueError
  else do
    let (minlon, maxlon, minlat, maxlat) ←
      scanFeatures (180, -180, 180, -180) g.features
    if format = "lonlat" then
      .ok ((minlon, maxlon), (minlat, maxlat))
    else
      .ok ((minlat, maxlat), (minlon, maxlon))

/-! ### The `filter` function over raw dictionary values -/

/-- A Python value as traversed by `filter`: numbers, strings, lists and
dictionaries (association lists; Python dictionaries have no duplicate
keys). -/
inductive PyVal where
  | vNum : ℚ → PyVal
  | vStr : String → PyVal
  | vList : List PyVal → PyVal
  | vDict : List (String × PyVal) → PyVal

mutual

/-- Decidable equality of Python values (`==` in the source; Python
dictionary equality is order-insensitive, but the dictionaries compared
by `filter` come unchanged from the input, so comparing association
lists entry by entry is faithful there). -/
def PyVal.deq : (a b : PyVal) → Decidable (a = b)
  | .vNum x, .vNum y => @decidable_of_iff _ _ (by simp) (inferInstance : Decidable (x = y))
  | .vStr x, .vStr y => @decidable_of_iff _ _ (by simp) (inferInstance : Decidable (x = y))
  | .vList as, .vList bs => @decidable_of_iff _ _ (by simp) (PyVal.deqList as bs)
  | .vDict as, .vDict bs => @decidable_of_iff _ _ (by simp) (PyVal.deqDict as bs)
  | .vNum _, .vStr _ => isFalse (fun h => PyVal.noConfusion h)
  | .vNum _, .vList _ => isFalse (fun h => PyVal.noConfusion h)
  | .vNum _, .vDict _ => isFalse (fun h => PyVal.noConfusion h)
  | .vStr _, .vNum _ => isFalse (fun h => PyVal.noConfusion h)
  | .vStr _, .vList _ => isFalse (fun h => PyVal.noConfusion h)
  | .vStr _, .vDict _ => isFalse (fun h => PyVal.noConfusion h)
  | .vList _, .vNum _ => isFalse (fun h => PyVal.noConfusion h)
  | .vList _, .vStr _ => isFalse (fun h => PyVal.noConfusion h)
  | .vList _, .vDict _ => isFalse (fun h => PyVal.noConfusion h)
  | .vDict _, .vNum _ => isFalse (fun h => PyVal.noConfusion h)
  | .vDict _, .vStr _ => isFalse (fun h => PyVal.noConfusion h)
  | .vDict _, .vList _ => isFalse (fun h => PyVal.noConfusion h)

/-- Decidable equality of lists of Python values. -/
def PyVal.deqList : (as bs : List PyVal) → Decidable (as = bs)
  | [], [] => isTrue rfl
  | [], _ :: _ => isFalse (fun h => List.noConfusion h)
  | _ :: _, [] => isFalse (fun h => List.noConfusion h)
  | a :: as, b :: bs =>
    @decidable_of_iff _ _ (by simp)
      (@instDecidableAnd _ _ (PyVal.deq a b) (PyVal.deqList as bs))

/-- Decidable equality of dictionary entry lists. -/
def PyVal.deqDict : (as bs : List (String × PyVal)) → Decidable (as = bs)
  | [], [] => isTrue rfl
  | [], _ :: _ => isFalse (fun h => List.noConfusion h)
  | _ :: _, [] => isFalse (fun h => List.noConfusion h)
  | (k, v) :: as, (l, w) :: bs =>
    @decidable_of_iff _ _ (by simp)
      (@instDecidableAnd _ _
        (@instDecidableAnd _ _ (inferInstance : Decidable (k = l)) (PyVal.deq v w))
        (PyVal.deqDict as bs))

end

instance : DecidableEq PyVal := PyVal.deq

/-- `val[key]`: dictionary lookup; a missing key raises `KeyError`,
subscripting a non-dictionary by a string raises `TypeError`. -/
def lookupKey (v : PyVal) (key : String) : Except PyErr PyVal :=
  match v with
  | .vDict entries =>
    match entries.find? (fun e => e.1 = key) with
    | some e => .ok e.2
    | none => .error .keyError
  | _ => .error .typeError

/-- `for key in idkey: val = val[key]` — resolve a split key path. -/
def lookupPath (v : PyVal) : List String → Except PyErr PyVal
  | [] => .ok v
  | k :: ks => do lookupPath (← lookupKey v k) ks

/-- The feature collection as consumed by `filter`: its `type` entry and
its features as raw values. -/
structure GeoJSONV where
  type_ : String
  features : List PyVal
deriving DecidableEq

/-- Accumulating worker for `splitDot`. -/
def splitDotAux : List Char → List Char → List String
  | [], acc => [String.mk acc.reverse]
  | c :: cs, acc =>
    if c = '.' then String.mk acc.reverse :: splitDotAux cs []
    else splitDotAux cs (c :: acc)

/-- Python `idkey.split('.')`: split on every dot, keeping empty pieces
(so `''` yields `['']`, `'a..b'` yields `['a', '', 'b']`), implemented
over the character list so it evaluates by reduction. -/
def splitDot (s : String) : List String := splitDotAux s.data []

/-- The feature loop of `filter`: resolve `idkey` on each feature (the
first resolution error propagates), keep the features whose resolved
value equals `must_equal`. -/
def filterFeats (keys : List String) (must_equal : PyVal) :
    List PyVal → Except PyErr (List PyVal)
  | [] => .ok []
  | feat :: rest => do
    let val ← lookupPath feat keys
    let tail ← filterFeats keys must_equal rest
    .ok (if val = must_equal then feat :: tail else tail)

/-- `filter(geojson, idkey, must_equal)`: split `idkey` on `'.'`, copy
the `type` entry, and keep exactly the features whose resolved value
equals `must_equal`, in order. -/
def filter (g : GeoJSONV) (idkey : String) (must_equal : PyVal) :
    Except PyErr GeoJSONV := do
  let keys := splitDot idkey
  let kept ← filterFeats keys must_equal g.features
  .ok { type_ := g.type_, features := kept }

/-! ### Concrete inputs and shape predicates used by the claims -/

/-- A collection with one LineString feature holding the single point
`[100, 50]`. -/
def boxSample : GeoJSON :=
  ⟨"FeatureCollection",
   [⟨Geometry.mk "LineString" (some (.arr [.arr [.num 100, .num 50]])) none⟩]⟩

/-- A collection with one LineString feature holding `[[0,0], [1,0]]`. -/
def permSampleA : GeoJSON :=
  ⟨"FeatureCollection",
   [⟨Geometry.mk "LineString"
      (some (.arr [.arr [.num 0, .num 0], .arr [.num 1, .num 0]])) none⟩]⟩

/-- The same collection with the two points transposed. -/
def permSampleB : GeoJSON :=
  ⟨"FeatureCollection",
   [⟨Geometry.mk "LineString"
      (some (.arr [.arr [.num 1, .num 0], .arr [.num 0, .num 0]])) none⟩]⟩

/-- The argument shapes under which `zoom_center` gets past its data
resolution and `max`/`min` calls: both axis tuples given and non-empty,
or neither given and a non-empty `lonlats` tuple. -/
def resolvableData : Option (List ℚ) → Option (List ℚ) → Option (List (ℚ × ℚ)) → Prop
  | some l, some t, _ => l ≠ [] ∧ t ≠ []
  | none, none, some ps => ps ≠ []
  | _, _, _ => False

/-- Coordinate lists on which `flatten_list` succeeds with every yielded
pair carrying at least two leading numeric entries (so the `get_box`
scan succeeds as well). -/
inductive WfCoords : List CoordTree → Prop
  | nil : WfCoords []
  | pair (a b : ℚ) (cs : List CoordTree) (rest : List CoordTree)
      (h : WfCoords rest) : WfCoords (.arr (.num a :: .num b :: cs) :: rest)
  | nest (c : List CoordTree) (cs : List CoordTree) (rest : List CoordTree)
      (hin : WfCoords (.arr c :: cs)) (h : WfCoords rest) :
      WfCoords (.arr (.arr c :: cs) :: rest)

/-- A geometry whose `coordinates` entry is present and well-formed. -/
def WfGeom (geom : Geometry) : Prop :=
  ∃ l, geom.coordinates = some (.arr l) ∧ WfCoords l

/-- A feature that the pipeline processes without raising. -/
def WfFeat (f : Feature) : Prop :=
  if f.geometry.type_ = "GeometryCollection" then
    ∃ gs, f.geometry.geometries = some gs ∧ ∀ geom ∈ gs, WfGeom geom
  else WfGeom f.geometry

/-- The shape of `lon_zoom_range`: strictly increasing spans, with
nonincreasing zoom values. -/
inductive TableOK : List (ℚ × ℚ) → Prop
  | nil : TableOK []
  | single (p : ℚ × ℚ) : TableOK [p]
  | cons (p q : ℚ × ℚ) (rest : List (ℚ × ℚ)) (hx : p.1 < q.1) (hy : q.2 ≤ p.2)
      (h : TableOK (q :: rest)) : TableOK (p :: q :: rest)

/-! ### Properties of the rounding helpers -/

theorem floor_le_rheInt (q : ℚ) : ⌊q⌋ ≤ rheInt q := by
  unfold rheInt
  split_ifs <;> omega

theorem rheInt_le_floor_add_one (q : ℚ) : rheInt q ≤ ⌊q⌋ + 1 := by
  unfold rheInt
  split_ifs <;> omega

theorem rheInt_ge {q : ℚ} {B : ℤ} (h : (B : ℚ) ≤ q) : B ≤ rheInt q :=
  le_trans (Int.le_floor.mpr h) (floor_le_rheInt q)

theorem rheInt_le {q : ℚ} {B : ℤ} (h : q ≤ (B : ℚ)) : rheInt q ≤ B := by
  unfold rheInt
  have hfB : ⌊q⌋ ≤ B := le_trans (Int.floor_le_floor h) (by simp)
  split_ifs with h1 h2 h3
  · exact hfB
  · -- the fractional part exceeds 1/2, so the floor is strictly below `B`
    have hq : (⌊q⌋ : ℚ) < q := by nlinarith
    have hlt : ⌊q⌋ < B := by exact_mod_cast lt_of_lt_of_le hq h
    omega
  · exact hfB
  · -- the tie case with an odd floor: again the floor is strictly below `B`
    have hfrac : (1 : ℚ)/2 = q - ⌊q⌋ := le_antisymm (not_lt.mp h1) (not_lt.mp h2)
    have hq : (⌊q⌋ : ℚ) < q := by nlinarith
    have hlt : ⌊q⌋ < B := by exact_mod_cast lt_of_lt_of_le hq h
    omega

theorem rheInt_mono {q r : ℚ} (h : q ≤ r) : rheInt q ≤ rheInt r := by
  rcases lt_or_ge ⌊q⌋ ⌊r⌋ with hf | hf
  · calc rheInt q ≤ ⌊q⌋ + 1 := rheInt_le_floor_add_one q
    _ ≤ ⌊r⌋ := hf
    _ ≤ rheInt r := floor_le_rheInt r
  · have hf' : ⌊q⌋ = ⌊r⌋ := le_antisymm (Int.floor_le_floor h) hf
    have hfr : q - ⌊q⌋ ≤ r - ⌊r⌋ := by rw [hf']; linarith
    unfold rheInt
    rw [hf'] at hfr ⊢
    split_ifs <;> first | omega | linarith

theorem roundTo_mono (n : ℕ) {q r : ℚ} (h : q ≤ r) : roundTo n q ≤ roundTo n r := by
  unfold roundTo
  have hp : (0 : ℚ) < 10 ^ n := by positivity
  have h2 := rheInt_mono (mul_le_mul_of_nonneg_right h (le_of_lt hp))
  have h3 : ((rheInt (q * 10 ^ n) : ℤ) : ℚ) ≤ ((rheInt (r * 10 ^ n) : ℤ) : ℚ) := by
    exact_mod_cast h2
  exact (div_le_div_right hp).mpr h3

theorem roundTo_ge {n : ℕ} {q : ℚ} {B : ℤ} (h : (B : ℚ) ≤ q) :
    (B : ℚ) ≤ roundTo n q := by
  unfold roundTo
  have hp : (0 : ℚ) < 10 ^ n := by positivity
  have h1 : ((B * 10 ^ n : ℤ) : ℚ) ≤ q * 10 ^ n := by
    push_cast
    exact mul_le_mul_of_nonneg_right h (le_of_lt hp)
  have h2 := rheInt_ge h1
  have h3 : ((B * 10 ^ n : ℤ) : ℚ) ≤ ((rheInt (q * 10 ^ n) : ℤ) : ℚ) := by
    exact_mod_cast h2
  rw [le_div_iff hp]
  calc (B : ℚ) * 10 ^ n = ((B * 10 ^ n : ℤ) : ℚ) := by push_cast; ring
  _ ≤ _ := h3

theorem roundTo_le {n : ℕ} {q : ℚ} {B : ℤ} (h : q ≤ (B : ℚ)) :
    roundTo n q ≤ (B : ℚ) := by
  unfold roundTo
  have hp : (0 : ℚ) < 10 ^ n := by positivity
  have h1 : q * 10 ^ n ≤ ((B * 10 ^ n : ℤ) : ℚ) := by
    push_cast
    exact mul_le_mul_of_nonneg_right h (le_of_lt hp)
  have h2 := rheInt_le h1
  have h3 : ((rheInt (q * 10 ^ n) : ℤ) : ℚ) ≤ ((B * 10 ^ n : ℤ) : ℚ) := by
    exact_mod_cast h2
  rw [div_le_iff hp]
  calc ((rheInt (q * 10 ^ n) : ℤ) : ℚ) ≤ ((B * 10 ^ n : ℤ) : ℚ) := h3
  _ = (B : ℚ) * 10 ^ n := by push_cast; ring

/-! ### Properties of the interpolation table lookup -/

theorem tableOK_tail {p : ℚ × ℚ} {l : List (ℚ × ℚ)} (h : TableOK (p :: l)) :
    TableOK l := by
  cases h with
  | single _ => exact .nil
  | cons _ _ _ _ _ h => exact h

theorem tableOK_vals_le {p : ℚ × ℚ} {l : List (ℚ × ℚ)} (h : TableOK (p :: l)) :
    ∀ pr ∈ p :: l, pr.2 ≤ p.2 := by
  induction l generalizing p with
  | nil => simp
  | cons q rest ih =>
    cases h with
    | cons _ _ _ hx hy h =>
      intro pr hpr
      rcases List.mem_cons.mp hpr with rfl | hpr
      · exact le_refl _
      · exact le_trans (ih h pr hpr) hy

/-- Within one segment (spans `a < b`, values `c`, `d`) the interpolated
value stays between the two endpoint values. -/
theorem seg_between {a b c d x : ℚ} (hab : a < b) (hx1 : a < x)
    (hx2 : x ≤ b) :
    min c d ≤ c + (x - a) * (d - c) / (b - a) ∧
    c + (x - a) * (d - c) / (b - a) ≤ max c d := by
  have hd : (0 : ℚ) < b - a := by linarith
  constructor
  · rcases le_total c d with hy | hy
    · rw [min_eq_left hy]
      have h0 : 0 ≤ (x - a) * (d - c) / (b - a) :=
        div_nonneg (mul_nonneg (by linarith) (by linarith)) (by linarith)
      linarith
    · rw [min_eq_right hy, ← sub_nonneg]
      have key : c + (x - a) * (d - c) / (b - a) - d
          = ((b - x) * (c - d)) / (b - a) := by
        field_simp
        ring
      rw [key]
      exact div_nonneg (mul_nonneg (by linarith) (by linarith)) (by linarith)
  · rcases le_total c d with hy | hy
    · rw [max_eq_right hy, ← sub_nonneg]
      have key : d - (c + (x - a) * (d - c) / (b - a))
          = ((b - x) * (d - c)) / (b - a) := by
        field_simp
        ring
      rw [key]
      exact div_nonneg (mul_nonneg (by linarith) (by linarith)) (by linarith)
    · rw [max_eq_left hy]
      have h2 : (x - a) * (d - c) / (b - a) ≤ 0 :=
        div_nonpos_of_nonpos_of_nonneg
          (mul_nonpos_of_nonneg_of_nonpos (by linarith) (by linarith)) (by linarith)
      linarith

theorem interpPL_single (x : ℚ) (p : ℚ × ℚ) : interpPL x [p] = p.2 := rfl

theorem interpPL_cons2 (x : ℚ) (p q : ℚ × ℚ) (rest : List (ℚ × ℚ)) :
    interpPL x (p :: q :: rest)
      = if x ≤ p.1 then p.2
        else if x < q.1 then p.2 + (x - p.1) * (q.2 - p.2) / (q.1 - p.1)
        else interpPL x (q :: rest) := rfl

/-- The interpolated value never exceeds the first knot's value when the
values descend. -/
theorem interpPL_le_head {p : ℚ × ℚ} {l : List (ℚ × ℚ)} (h : TableOK (p :: l))
    (x : ℚ) : interpPL x (p :: l) ≤ p.2 := by
  induction l generalizing p with
  | nil => rw [interpPL_single]
  | cons q rest ih =>
    cases h with
    | cons _ _ _ hx hy htail =>
      rw [interpPL_cons2]
      by_cases h1 : x ≤ p.1
      · rw [if_pos h1]
      · rw [if_neg h1]
        by_cases h2 : x < q.1
        · rw [if_pos h2]
          have hseg := (seg_between (c := p.2) (d := q.2) hx (lt_of_not_le h1) (le_of_lt h2)).2
          calc p.2 + (x - p.1) * (q.2 - p.2) / (q.1 - p.1) ≤ max p.2 q.2 := hseg
          _ = p.2 := max_eq_left hy
        · rw [if_neg h2]
          exact le_trans (ih htail) hy

/-- A common lower bound of the knot values bounds the interpolated
value from below. -/
theorem interpPL_ge {lo : ℚ} {p : ℚ × ℚ} {l : List (ℚ × ℚ)} (h : TableOK (p :: l))
    (hlo : ∀ pr ∈ p :: l, lo ≤ pr.2) (x : ℚ) : lo ≤ interpPL x (p :: l) := by
  induction l generalizing p with
  | nil =>
    rw [interpPL_single]
    exact hlo p (by simp)
  | cons q rest ih =>
    cases h with
    | cons _ _ _ hx hy htail =>
      rw [interpPL_cons2]
      by_cases h1 : x ≤ p.1
      · rw [if_pos h1]; exact hlo p (by simp)
      · rw [if_neg h1]
        by_cases h2 : x < q.1
        · rw [if_pos h2]
          have hseg := (seg_between (c := p.2) (d := q.2) hx (lt_of_not_le h1) (le_of_lt h2)).1
          have hm : lo ≤ min p.2 q.2 := le_min (hlo p (by simp)) (hlo q (by simp))
          linarith
        · rw [if_neg h2]
          exact ih htail (fun pr hpr => hlo pr (List.mem_cons_of_mem _ hpr))

/-- Piecewise-linear lookup against descending values is antitone. -/
theorem interpPL_antitone {l : List (ℚ × ℚ)} (h : TableOK l) {a b : ℚ}
    (hab : a ≤ b) : interpPL b l ≤ interpPL a l := by
  induction l with
  | nil => exact le_refl _
  | cons p rest ih =>
    cases rest with
    | nil => exact le_refl _
    | cons q rest' =>
      cases h with
      | cons _ _ _ hx hy htail =>
        by_cases ha1 : a ≤ p.1
        · rw [show interpPL a (p :: q :: rest') = p.2 by rw [interpPL_cons2, if_pos ha1]]
          exact interpPL_le_head (TableOK.cons p q rest' hx hy htail) b
        · have hpa : p.1 < a := lt_of_not_le ha1
          have hb1 : ¬ b ≤ p.1 := fun hb => ha1 (le_trans hab hb)
          by_cases hb2 : b < q.1
          · have ha2 : a < q.1 := lt_of_le_of_lt hab hb2
            rw [interpPL_cons2 a, interpPL_cons2 b, if_neg ha1, if_pos ha2,
                if_neg hb1, if_pos hb2]
            have key : p.2 + (a - p.1) * (q.2 - p.2) / (q.1 - p.1)
                - (p.2 + (b - p.1) * (q.2 - p.2) / (q.1 - p.1))
                = ((b - a) * (p.2 - q.2)) / (q.1 - p.1) := by
              field_simp
              ring
            have h0 : 0 ≤ ((b - a) * (p.2 - q.2)) / (q.1 - p.1) :=
              div_nonneg (mul_nonneg (by linarith) (by linarith)) (by linarith)
            linarith
          · rw [interpPL_cons2 b, if_neg hb1, if_neg hb2]
            have hLHS : interpPL b (q :: rest') ≤ q.2 := interpPL_le_head htail b
            by_cases ha2 : a < q.1
            · rw [interpPL_cons2 a, if_neg ha1, if_pos ha2]
              have hseg := (seg_between (c := p.2) (d := q.2) hx hpa (le_of_lt ha2)).1
              have hmin : min p.2 q.2 = q.2 := min_eq_right hy
              linarith
            · rw [interpPL_cons2 a, if_neg ha1, if_neg ha2]
              exact ih htail

theorem pymin2_eq_min (x y : ℚ) : pymin2 x y = min x y := by
  unfold pymin2
  split_ifs with h
  · exact (min_eq_right (le_of_lt h)).symm
  · exact (min_eq_left (not_lt.mp h)).symm

theorem lon_zoom_range_ok : TableOK lon_zoom_range := by
  unfold lon_zoom_range
  repeat
    first
    | exact TableOK.single _
    | refine TableOK.cons _ _ _ (by norm_num) (by norm_num) ?_

theorem lon_zoom_range_vals_ge : ∀ pr ∈ lon_zoom_range, (1 : ℚ) ≤ pr.2 := by
  decide

/-- Every table lookup lands in the zoom range `[1, 20]`. -/
theorem interp_table_range (x : ℚ) :
    1 ≤ interpPL x lon_zoom_range ∧ interpPL x lon_zoom_range ≤ 20 := by
  constructor
  · exact interpPL_ge lon_zoom_range_ok lon_zoom_range_vals_ge x
  · simpa using interpPL_le_head lon_zoom_range_ok x

/-- `get_zoom_mercator` always returns a value in `[1, 20]`. -/
theorem get_zoom_mercator_range (minlon maxlon minlat maxlat w : ℚ) :
    1 ≤ get_zoom_mercator minlon maxlon minlat maxlat w ∧
    get_zoom_mercator minlon maxlon minlat maxlat w ≤ 20 := by
  simp only [get_zoom_mercator, pymin2_eq_min]
  have h1 := interp_table_range ((maxlon - minlon) * (12/10))
  have h2 := interp_table_range ((maxlat - minlat) * (12/10) * w)
  constructor
  · have : (1 : ℚ) ≤ min (interpPL ((maxlon - minlon) * (12/10)) lon_zoom_range)
        (interpPL ((maxlat - minlat) * (12/10) * w) lon_zoom_range) :=
      le_min h1.1 h2.1
    simpa using roundTo_ge (B := 1) (by exact_mod_cast this)
  · have : min (interpPL ((maxlon - minlon) * (12/10)) lon_zoom_range)
        (interpPL ((maxlat - minlat) * (12/10) * w) lon_zoom_range) ≤ (20 : ℚ) :=
      le_trans (min_le_left _ _) h1.2
    simpa using roundTo_le (B := 20) (by exact_mod_cast this)

/-- Widening the longitude span (latitude fixed) cannot increase the
zoom. -/
theorem get_zoom_mercator_mono_lon {minlon maxlon minlon' maxlon' minlat maxlat w : ℚ}
    (h : maxlon - minlon ≤ maxlon' - minlon') :
    get_zoom_mercator minlon' maxlon' minlat maxlat w ≤
    get_zoom_mercator minlon maxlon minlat maxlat w := by
  simp only [get_zoom_mercator, pymin2_eq_min]
  apply roundTo_mono
  have hw : (maxlon - minlon) * (12/10) ≤ (maxlon' - minlon') * (12/10) :=
    mul_le_mul_of_nonneg_right h (by norm_num)
  exact min_le_min (interpPL_antitone lon_zoom_range_ok hw) (le_refl _)

/-- Widening the latitude span (longitude fixed, nonnegative aspect
ratio) cannot increase the zoom. -/
theorem get_zoom_mercator_mono_lat {minlon maxlon minlat maxlat minlat' maxlat' w : ℚ}
    (h : maxlat - minlat ≤ maxlat' - minlat') (hw : 0 ≤ w) :
    get_zoom_mercator minlon maxlon minlat' maxlat' w ≤
    get_zoom_mercator minlon maxlon minlat maxlat w := by
  simp only [get_zoom_mercator, pymin2_eq_min]
  apply roundTo_mono
  have hh : (maxlat - minlat) * (12/10) * w ≤ (maxlat' - minlat') * (12/10) * w :=
    mul_le_mul_of_nonneg_right (mul_le_mul_of_nonneg_right h (by norm_num)) hw
  exact min_le_min (le_refl _) (interpPL_antitone lon_zoom_range_ok hh)

/-! ### Claims -/

/-- C1: the claimed bound "minLongitude ≤ every longitude ≤ maxLongitude
(and symmetrically for latitude)" FAILS on the code: on a collection
whose only point is `[100, 50]`, `get_box` returns
`((100, -180), (50, -180))` — the maxima stay at the hardcoded sentinel
`-180` because the `elif` branch never runs when the minimum updates,
so `100 ≤ maxLongitude` is false.  (The claimed independent min/max
tests and first-point initialization are likewise absent from the
source.) -/
theorem C1_box_bound_violated :
    get_box boxSample "lonlat" = .ok ((100, -180), (50, -180)) ∧
    ¬ ((100 : ℚ) ≤ -180) := by
  constructor
  · simp +decide [get_box, boxSample, scanFeatures, scanGeoms, scanList, scanPoint,
      boxStep, expandFeature, Geometry.type_, Geometry.coordinates,
      Geometry.geometries, Bind.bind, Except.bind]
  · norm_num

/-- C2: `get_box` is NOT invariant under permutation of the coordinate
points: transposing the two points `[0,0]` and `[1,0]` of a LineString
changes the result from `((0, 1), (0, 0))` to `((0, -180), (0, 0))`
(the `elif` scan misses the max update when the first point already
lowered the minimum). -/
theorem C2_box_order_dependent :
    get_box permSampleA "lonlat" = .ok ((0, 1), (0, 0)) ∧
    get_box permSampleB "lonlat" = .ok ((0, -180), (0, 0)) ∧
    get_box permSampleA "lonlat" ≠ get_box permSampleB "lonlat" := by
  have hA : get_box permSampleA "lonlat" = .ok ((0, 1), (0, 0)) := by
    simp +decide [get_box, permSampleA, scanFeatures, scanGeoms, scanList, scanPoint,
      boxStep, expandFeature, Geometry.type_, Geometry.coordinates,
      Geometry.geometries, Bind.bind, Except.bind]
  have hB : get_box permSampleB "lonlat" = .ok ((0, -180), (0, 0)) := by
    simp +decide [get_box, permSampleB, scanFeatures, scanGeoms, scanList, scanPoint,
      boxStep, expandFeature, Geometry.type_, Geometry.coordinates,
      Geometry.geometries, Bind.bind, Except.bind]
  refine ⟨hA, hB, ?_⟩
  rw [hA, hB]
  decide

/-- C3: swapping `format` together with the swapped axis data does NOT
leave the result unchanged: `zoom_center` never reads `format` (its
`zip(*lonlats)` always takes first components as longitudes), and
`zoom_on_box` unpacks the box identically in both format branches, so
the latlon-ordered calls return the center with the axes exchanged. -/
theorem C3_format_swap_not_invariant :
    zoom_center none none (some [(0, 50)]) "lonlat" "mercator" 2
      = .ok (20, ⟨0, 50⟩) ∧
    zoom_center none none (some [(50, 0)]) "latlon" "mercator" 2
      = .ok (20, ⟨50, 0⟩) ∧
    zoom_on_box ((0, 0), (50, 50)) "lonlat" 2 = .ok (20, ⟨0, 50⟩) ∧
    zoom_on_box ((50, 50), (0, 0)) "latlon" 2 = .ok (20, ⟨50, 0⟩) ∧
    (Center.mk 0 50 ≠ Center.mk 50 0) :=
  ⟨by decide, by decide, by decide, by decide, by decide⟩

/-- C4: the format guard `format not in ['lonlat', 'lanlot']` contains a
typo: the documented tag `'latlon'` raises `NotImplementedError` in both
`flatten_geometries` and `get_box`, while the misspelling `'lanlot'` is
accepted and takes the swapped-axis branch. -/
theorem C4_latlon_rejected_lanlot_accepted :
    flatten_geometries boxSample "latlon" true = .error .notImplementedError ∧
    get_box boxSample "latlon" = .error .notImplementedError ∧
    flatten_geometries boxSample "lanlot" true
      = .ok ([.num 50], [.num 100], some [.arr [.num 100, .num 50]]) ∧
    get_box boxSample "lanlot" = .ok ((50, -180), (100, -180)) := by
  refine ⟨?_, ?_, ?_, ?_⟩
  · simp +decide [flatten_geometries, boxSample]
  · simp +decide [get_box, boxSample]
  · simp +decide [flatten_geometries, boxSample, featurePairs, geomFold, geomPairs,
      flatten_list, unzipPairs, expandFeature, Geometry.type_, Geometry.coordinates,
      Geometry.geometries, Bind.bind, Except.bind]
  · simp +decide [get_box, boxSample, scanFeatures, scanGeoms, scanList, scanPoint,
      boxStep, expandFeature, Geometry.type_, Geometry.coordinates,
      Geometry.geometries, Bind.bind, Except.bind]

set_option maxRecDepth 10000 in
/-- C5: the doctest case, in bit-exact binary64 arithmetic:
`zoom_center(lons=(-109.031387, -103.385460), lats=(25.587101, 31.784620))`
with the default format, projection and aspect ratio returns
`zoom = 5.75` and `center = {lon: -106.208423, lat: 28.685861}` (each
float denoted by the exact rational value of its double). -/
theorem C5_doctest_case :
    zoom_centerF (some [dbl (-109031387/1000000), dbl (-103385460/1000000)])
      (some [dbl (25587101/1000000), dbl (31784620/1000000)])
      none "lonlat" "mercator" (dbl 2)
    = .ok (dbl (575/100), ⟨dbl (-106208423/1000000), dbl (28685861/1000000)⟩) := by
  decide

/-- C6: the interpolation clamps at the table endpoints — the degenerate
box at the origin yields zoom 20 with center `(0, 0)`, the full globe
yields zoom 1 — and every zoom `get_zoom_mercator` returns lies in
`[1, 20]`. -/
theorem C6_zoom_clamp :
    zoom_on_box ((0, 0), (0, 0)) "lonlat" 2 = .ok (20, ⟨0, 0⟩) ∧
    zoom_on_box ((-180, 180), (-90, 90)) "lonlat" 2 = .ok (1, ⟨0, 0⟩) ∧
    ∀ minlon maxlon minlat maxlat w : ℚ,
      1 ≤ get_zoom_mercator minlon maxlon minlat maxlat w ∧
      get_zoom_mercator minlon maxlon minlat maxlat w ≤ 20 :=
  ⟨by decide, by decide, get_zoom_mercator_range⟩

/-- C7: strictly widening the longitude span with the latitude span
fixed (or the latitude span with the longitude span fixed, for a
nonnegative aspect ratio) never increases the zoom returned by
`get_zoom_mercator`. -/
theorem C7_zoom_monotone :
    (∀ minlon maxlon minlon' maxlon' minlat maxlat w : ℚ,
        maxlon - minlon < maxlon' - minlon' →
        get_zoom_mercator minlon' maxlon' minlat maxlat w ≤
        get_zoom_mercator minlon maxlon minlat maxlat w) ∧
    (∀ minlon maxlon minlat maxlat minlat' maxlat' w : ℚ,
        0 ≤ w →
        maxlat - minlat < maxlat' - minlat' →
        get_zoom_mercator minlon maxlon minlat' maxlat' w ≤
        get_zoom_mercator minlon maxlon minlat maxlat w) :=
  ⟨fun _ _ _ _ _ _ _ h => get_zoom_mercator_mono_lon (le_of_lt h),
   fun _ _ _ _ _ _ _ hw h => get_zoom_mercator_mono_lat (le_of_lt h) hw⟩

/-- Witness for C7 at a concrete widening on each axis. -/
theorem C7_zoom_monotone_witness :
    ((1 : ℚ) - 0 < 2 - 0 ∧
      get_zoom_mercator 0 2 0 1 2 ≤ get_zoom_mercator 0 1 0 1 2) ∧
    ((0 : ℚ) ≤ 2 ∧ (1 : ℚ) - 0 < 2 - 0 ∧
      get_zoom_mercator 0 1 0 2 2 ≤ get_zoom_mercator 0 1 0 1 2) :=
  ⟨⟨by norm_num, C7_zoom_monotone.1 0 1 0 2 0 1 2 (by norm_num)⟩,
   ⟨by norm_num, by norm_num,
     C7_zoom_monotone.2 0 1 0 1 0 2 2 (by norm_num) (by norm_num)⟩⟩

/-- C8: for every argument shape that reaches the projection check (data
given and non-empty) and every projection other than `'mercator'`,
`zoom_center` raises `NotImplementedError` and produces no result. -/
theorem C8_non_mercator_error (lons lats : Option (List ℚ))
    (lonlats : Option (List (ℚ × ℚ))) (format projection : String) (w : ℚ)
    (hd : resolvableData lons lats lonlats) (hp : projection ≠ "mercator") :
    zoom_center lons lats lonlats format projection w
      = .error .notImplementedError := by
  rcases lons with _ | l
  · rcases lats with _ | t
    · rcases lonlats with _ | ps
      · exact hd.elim
      · rcases ps with _ | ⟨p, ps'⟩
        · exact absurd rfl hd
        · simp [zoom_center, pymaxOpt, pyminOpt, pymax, pymin, hp,
            Bind.bind, Except.bind]
    · exact hd.elim
  · rcases lats with _ | t
    · exact hd.elim
    · rcases l with _ | ⟨x, xs⟩
      · exact absurd rfl hd.1
      · rcases t with _ | ⟨y, ys⟩
        · exact absurd rfl hd.2
        · simp [zoom_center, pymaxOpt, pyminOpt, pymax, pymin, hp,
            Bind.bind, Except.bind]

/-- Witness for C8: a non-empty call with projection `'gnomonic'`. -/
theorem C8_non_mercator_error_witness :
    resolvableData (some [1, 2]) (some [3, 4]) none ∧
    "gnomonic" ≠ "mercator" ∧
    zoom_center (some [1, 2]) (some [3, 4]) none "lonlat" "gnomonic" 2
      = .error .notImplementedError :=
  ⟨⟨by simp, by simp⟩, by decide,
   C8_non_mercator_error (some [1, 2]) (some [3, 4]) none "lonlat" "gnomonic" 2
     ⟨by simp, by simp⟩ (by decide)⟩

/-! ### Lemmas for the filter and the nested-collection claims -/

theorem filterFeats_ok (keys : List String) (mv : PyVal) (fs : List PyVal)
    (h : ∀ f ∈ fs, ∃ v, lookupPath f keys = .ok v) :
    filterFeats keys mv fs = .ok (fs.filter (fun f =>
      match lookupPath f keys with
      | .ok v => decide (v = mv)
      | .error _ => false)) := by
  induction fs with
  | nil => simp [filterFeats]
  | cons f rest ih =>
    obtain ⟨v, hv⟩ := h f (by simp)
    have hrest := ih (fun f' hf' => h f' (by simp [hf']))
    by_cases hvm : v = mv <;>
      simp [filterFeats, hv, hrest, hvm, List.filter_cons, Bind.bind, Except.bind]

theorem filterFeats_err (keys : List String) (mv : PyVal) (pre : List PyVal)
    (h : ∀ f ∈ pre, ∃ v, lookupPath f keys = .ok v) (f : PyVal) (post : List PyVal)
    (hf : lookupPath f keys = .error .keyError) :
    filterFeats keys mv (pre ++ f :: post) = .error .keyError := by
  induction pre with
  | nil => simp [filterFeats, hf, Bind.bind, Except.bind]
  | cons g rest ih =>
    obtain ⟨v, hv⟩ := h g (by simp)
    simp [filterFeats, hv, Bind.bind, Except.bind,
      ih (fun f' hf' => h f' (by simp [hf']))]

theorem flatten_list_wf {l : List CoordTree} (h : WfCoords l) :
    ∃ ps, flatten_list l = .ok ps := by
  induction h with
  | nil => exact ⟨[], by simp [flatten_list]⟩
  | pair a b cs rest hrest ih =>
    obtain ⟨ps, hps⟩ := ih
    exact ⟨.arr (.num a :: .num b :: cs) :: ps,
      by simp [flatten_list, hps, Bind.bind, Except.bind]⟩
  | nest c cs rest hin hrest ihin ihrest =>
    obtain ⟨ps1, h1⟩ := ihin
    obtain ⟨ps2, h2⟩ := ihrest
    exact ⟨ps1 ++ ps2, by simp [flatten_list, h1, h2, Bind.bind, Except.bind]⟩

theorem scanList_wf {l : List CoordTree} (h : WfCoords l) :
    ∀ st, ∃ st', scanList st l = .ok st' := by
  induction h with
  | nil => exact fun st => ⟨st, by simp [scanList]⟩
  | pair a b cs rest hrest ih =>
    intro st
    obtain ⟨st', hst'⟩ := ih (boxStep st a b)
    exact ⟨st', by simp [scanList, scanPoint, hst', Bind.bind, Except.bind]⟩
  | nest c cs rest hin hrest ihin ihrest =>
    intro st
    obtain ⟨st1, h1⟩ := ihin st
    obtain ⟨st2, h2⟩ := ihrest st1
    exact ⟨st2, by simp [scanList, h1, h2, Bind.bind, Except.bind]⟩

theorem geomPairs_wf {geom : Geometry} (h : WfGeom geom) :
    ∃ ps, geomPairs geom = .ok ps := by
  obtain ⟨l, hc, hw⟩ := h
  obtain ⟨ps, hps⟩ := flatten_list_wf hw
  exact ⟨ps, by simp [geomPairs, hc, hps]⟩

theorem geomFold_wf {gs : List Geometry} (h : ∀ geom ∈ gs, WfGeom geom) :
    ∀ acc, ∃ ps, geomFold acc gs = .ok ps := by
  induction gs with
  | nil => exact fun acc => ⟨acc, by simp [geomFold]⟩
  | cons geom rest ih =>
    intro acc
    obtain ⟨ps1, h1⟩ := geomPairs_wf (h geom (by simp))
    obtain ⟨ps2, h2⟩ := ih (fun g hg => h g (by simp [hg])) (acc ++ ps1)
    exact ⟨ps2, by simp [geomFold, h1, h2, Bind.bind, Except.bind]⟩

theorem geomFold_err {gpre gpost : List Geometry} {child : Geometry}
    (h : ∀ geom ∈ gpre, WfGeom geom) (hchild : child.coordinates = none) :
    ∀ acc, geomFold acc (gpre ++ child :: gpost) = .error .keyError := by
  induction gpre with
  | nil => intro acc; simp [geomFold, geomPairs, hchild, Bind.bind, Except.bind]
  | cons geom rest ih =>
    intro acc
    obtain ⟨ps1, h1⟩ := geomPairs_wf (h geom (by simp))
    simp [geomFold, h1, Bind.bind, Except.bind,
      ih (fun g hg => h g (by simp [hg]))]

theorem scanGeoms_wf {gs : List Geometry} (h : ∀ geom ∈ gs, WfGeom geom) :
    ∀ st, ∃ st', scanGeoms st gs = .ok st' := by
  induction gs with
  | nil => exact fun st => ⟨st, by simp [scanGeoms]⟩
  | cons geom rest ih =>
    intro st
    obtain ⟨l, hc, hw⟩ := h geom (by simp)
    obtain ⟨st1, h1⟩ := scanList_wf hw st
    obtain ⟨st2, h2⟩ := ih (fun g hg => h g (by simp [hg])) st1
    exact ⟨st2, by simp [scanGeoms, hc, h1, h2, Bind.bind, Except.bind]⟩

theorem scanGeoms_err {gpre gpost : List Geometry} {child : Geometry}
    (h : ∀ geom ∈ gpre, WfGeom geom) (hchild : child.coordinates = none) :
    ∀ st, scanGeoms st (gpre ++ child :: gpost) = .error .keyError := by
  induction gpre with
  | nil => intro st; simp [scanGeoms, hchild, Bind.bind, Except.bind]
  | cons geom rest ih =>
    intro st
    obtain ⟨l, hc, hw⟩ := h geom (by simp)
    obtain ⟨st1, h1⟩ := scanList_wf hw st
    simp [scanGeoms, hc, h1, Bind.bind, Except.bind,
      ih (fun g hg => h g (by simp [hg]))]

theorem featurePairs_err {pre rest : List Feature} {e : PyErr}
    (h : ∀ f ∈ pre, WfFeat f) (hrest : featurePairs rest = .error e) :
    featurePairs (pre ++ rest) = .error e := by
  induction pre with
  | nil => simpa
  | cons f fs ih =>
    have hf := h f (by simp)
    have htail := ih (fun f' hf' => h f' (by simp [hf']))
    unfold WfFeat at hf
    by_cases hGC : f.geometry.type_ = "GeometryCollection"
    · rw [if_pos hGC] at hf
      obtain ⟨gs, hgs, hall⟩ := hf
      obtain ⟨ps, hps⟩ := geomFold_wf hall []
      simp [featurePairs, expandFeature, hGC, hgs, hps, htail,
        Bind.bind, Except.bind]
    · rw [if_neg hGC] at hf
      obtain ⟨ps, hps⟩ := @geomFold_wf [f.geometry] (by simpa using hf) []
      simp [featurePairs, expandFeature, hGC, hps, htail, Bind.bind, Except.bind]

theorem scanFeatures_err {pre rest : List Feature} {e : PyErr}
    (h : ∀ f ∈ pre, WfFeat f) (hrest : ∀ st, scanFeatures st rest = .error e) :
    ∀ st, scanFeatures st (pre ++ rest) = .error e := by
  induction pre with
  | nil => simpa using hrest
  | cons f fs ih =>
    intro st
    have hf := h f (by simp)
    have htail := ih (fun f' hf' => h f' (by simp [hf']))
    unfold WfFeat at hf
    by_cases hGC : f.geometry.type_ = "GeometryCollection"
    · rw [if_pos hGC] at hf
      obtain ⟨gs, hgs, hall⟩ := hf
      obtain ⟨st1, h1⟩ := scanGeoms_wf hall st
      simp [scanFeatures, expandFeature, hGC, hgs, h1, htail st1,
        Bind.bind, Except.bind]
    · rw [if_neg hGC] at hf
      obtain ⟨st1, h1⟩ := @scanGeoms_wf [f.geometry] (by simpa using hf) st
      simp [scanFeatures, expandFeature, hGC, h1, htail st1, Bind.bind, Except.bind]

/-! ### Claims C9 and C10 -/

/-- C9: `filter` raises `KeyError` as soon as a feature does not resolve
the dotted key path (earlier features resolving fine) — the feature is
not silently excluded; and when every feature resolves the path, the
result keeps the input's `type` and exactly the subsequence, in original
order, of features whose resolved value equals the expected one. -/
theorem C9_filter_spec :
    (∀ (g : GeoJSONV) (idkey : String) (mv : PyVal) (pre post : List PyVal)
        (f : PyVal),
        g.features = pre ++ f :: post →
        (∀ f' ∈ pre, ∃ v, lookupPath f' (splitDot idkey) = .ok v) →
        lookupPath f (splitDot idkey) = .error .keyError →
        filter g idkey mv = .error .keyError) ∧
    (∀ (g : GeoJSONV) (idkey : String) (mv : PyVal),
        (∀ f ∈ g.features, ∃ v, lookupPath f (splitDot idkey) = .ok v) →
        filter g idkey mv = .ok ⟨g.type_, g.features.filter (fun f =>
          match lookupPath f (splitDot idkey) with
          | .ok v => decide (v = mv)
          | .error _ => false)⟩) := by
  constructor
  · intro g idkey mv pre post f hfeat hpre hf
    simp only [filter, Bind.bind, Except.bind, hfeat]
    rw [filterFeats_err _ _ _ hpre _ _ hf]
  · intro g idkey mv h
    simp only [filter, Bind.bind, Except.bind]
    rw [filterFeats_ok _ _ _ h]

/-- Witness for C9 on concrete two-feature collections: one with a
feature missing the key (KeyError), one fully resolving (filtered
copy). -/
theorem C9_filter_spec_witness :
    ((GeoJSONV.mk "FeatureCollection"
        [.vDict [("properties", .vDict [("name", .vStr "a")])],
         .vDict [("properties", .vDict [])]]).features
      = [.vDict [("properties", .vDict [("name", .vStr "a")])]]
        ++ .vDict [("properties", .vDict [])] :: [] ∧
     lookupPath (.vDict [("properties", .vDict [])])
        (splitDot "properties.name") = .error .keyError ∧
     filter (GeoJSONV.mk "FeatureCollection"
        [.vDict [("properties", .vDict [("name", .vStr "a")])],
         .vDict [("properties", .vDict [])]]) "properties.name" (.vStr "a")
      = .error .keyError) ∧
    (filter (GeoJSONV.mk "FeatureCollection"
        [.vDict [("properties", .vDict [("name", .vStr "a")])],
         .vDict [("properties", .vDict [("name", .vStr "b")])]])
        "properties.name" (.vStr "a")
      = .ok (GeoJSONV.mk "FeatureCollection"
          [.vDict [("properties", .vDict [("name", .vStr "a")])]])) := by
  refine ⟨⟨rfl, by decide, ?_⟩, ?_⟩
  · exact C9_filter_spec.1 _ "properties.name" (.vStr "a")
      [.vDict [("properties", .vDict [("name", .vStr "a")])]] [] _
      rfl (by intro f' hf'
              simp only [List.mem_singleton] at hf'
              exact ⟨.vStr "a", by rw [hf']; decide⟩)
      (by decide)
  · exact Eq.trans
      (C9_filter_spec.2 _ "properties.name" (.vStr "a")
        (by intro f hf
            rcases List.mem_cons.mp hf with rfl | hf
            · exact ⟨.vStr "a", by decide⟩
            · rcases List.mem_cons.mp hf with rfl | hf
              · exact ⟨.vStr "b", by decide⟩
              · exact absurd hf (List.not_mem_nil _)))
      (by decide)

/-- C10: the `GeometryCollection` unwrapping is one level deep only —
when a feature's geometry collection contains a child whose type is
itself `GeometryCollection` (and which therefore has no `coordinates`
key), both `flatten_geometries` and `get_box` raise `KeyError` (the rest
of the collection being well-formed), instead of flattening recursively
or raising a declared input error. -/
theorem C10_nested_gc_keyerror
    (t : String) (pre post : List Feature) (fcoords : Option CoordTree)
    (gpre gpost : List Geometry) (cgs : Option (List Geometry)) (rp : Bool)
    (hpre : ∀ f ∈ pre, WfFeat f) (hgpre : ∀ geom ∈ gpre, WfGeom geom) :
    flatten_geometries
      ⟨t, pre ++ ⟨Geometry.mk "GeometryCollection" fcoords
          (some (gpre ++ Geometry.mk "GeometryCollection" none cgs :: gpost))⟩
        :: post⟩ "lonlat" rp = .error .keyError ∧
    get_box
      ⟨t, pre ++ ⟨Geometry.mk "GeometryCollection" fcoords
          (some (gpre ++ Geometry.mk "GeometryCollection" none cgs :: gpost))⟩
        :: post⟩ "lonlat" = .error .keyError := by
  have hne : (pre ++ ⟨Geometry.mk "GeometryCollection" fcoords
      (some (gpre ++ Geometry.mk "GeometryCollection" none cgs :: gpost))⟩
      :: post).isEmpty = false := by
    cases pre <;> simp
  have hfold := @geomFold_err gpre gpost
    (Geometry.mk "GeometryCollection" none cgs) hgpre rfl
  have hscan := @scanGeoms_err gpre gpost
    (Geometry.mk "GeometryCollection" none cgs) hgpre rfl
  constructor
  · have hmid : featurePairs
        (⟨Geometry.mk "GeometryCollection" fcoords
            (some (gpre ++ Geometry.mk "GeometryCollection" none cgs :: gpost))⟩
          :: post) = .error .keyError := by
      simp [featurePairs, expandFeature, Geometry.type_, Geometry.geometries,
        hfold [], Bind.bind, Except.bind]
    have := featurePairs_err hpre hmid
    simp [flatten_geometries, hne, this, Bind.bind, Except.bind]
  · have hmid : ∀ st, scanFeatures st
        (⟨Geometry.mk "GeometryCollection" fcoords
            (some (gpre ++ Geometry.mk "GeometryCollection" none cgs :: gpost))⟩
          :: post) = .error .keyError := by
      intro st
      simp [scanFeatures, expandFeature, Geometry.type_, Geometry.geometries,
        hscan st, Bind.bind, Except.bind]
    have := scanFeatures_err hpre hmid (180, -180, 180, -180)
    simp [get_box, hne, this, Bind.bind, Except.bind]

/-- Witness for C10: a single-feature collection whose geometry
collection holds exactly one child of type `GeometryCollection`. -/
theorem C10_nested_gc_keyerror_witness :
    flatten_geometries
      ⟨"FeatureCollection", [⟨Geometry.mk "GeometryCollection" none
          (some [Geometry.mk "GeometryCollection" none (some [])])⟩]⟩
      "lonlat" true = .error .keyError ∧
    get_box
      ⟨"FeatureCollection", [⟨Geometry.mk "GeometryCollection" none
          (some [Geometry.mk "GeometryCollection" none (some [])])⟩]⟩
      "lonlat" = .error .keyError := by
  have h := C10_nested_gc_keyerror "FeatureCollection" [] [] none [] []
    (some []) true (by intro f hf; exact absurd hf (List.not_mem_nil f))
    (by intro g hg; exact absurd hg (List.not_mem_nil g))
  simpa using h

end RVGeojson
